import Mathlib

/-!
Verification of the auction-server core (src/auction-server/src/state.rs and
src/auction-server/src/server.rs).

The embedding translates the Rust data model and the `Store` methods into pure
Lean functions. Hash maps (`bids`, `submitted_auctions`, `auction_lock`, the
access-token cache) become association lists; the Postgres tables touched by
the claims (`bid`, `auction`, `access_token`, `profile`) become lists of rows
carried in an explicit `Store` state; each SQL statement becomes a pure
transformation of the corresponding table together with its `rows_affected`
count. A `dbOk` flag models the possibility that a DB round trip fails at the
transport level (sqlx `execute` returning `Err`), which the Rust code
propagates with the `?` operator before performing any later step.

Machine integers: `U256` amounts and `u32` bundle indices carry no arithmetic
in the verified code paths, so they are modelled as `Nat`. UUIDs, byte strings
and timestamps are modelled as `Nat`, `List Nat` and `Nat` respectively; only
their equality is ever used.
-/

set_option autoImplicit false

namespace PerState

abbrev PermissionKey := List Nat

abbrev ChainId := String

abbrev AuctionKey := PermissionKey × ChainId

abbrev BidId := Nat

abbrev AuctionId := Nat

abbrev TxHash := List Nat

/-- The `BidStatus` sum from state.rs lines 305-339. `result` is the
transaction hash bytes, `index` the bundle position. -/
inductive BidStatus where
  | pending
  | submitted (result : TxHash) (index : Nat)
  | lost (result : Option TxHash) (index : Option Nat)
  | won (result : TxHash) (index : Nat)
deriving DecidableEq, Repr

namespace models

/-- Modelled from the spec: §6 gives the DB enum `bid_status` with values
pending, submitted, lost, won. The Rust type `models::BidStatus` is not under
src/, but its four values are also fixed by the `sqlx::Encode` impl in
state.rs lines 341-360. -/
inductive BidStatus where
  | pending
  | submitted
  | lost
  | won
deriving DecidableEq, Repr

/-- Modelled from the spec: §6 gives the DB enum `chain_type` with values evm
and svm; `models::ChainType` is not under src/. -/
inductive ChainType where
  | evm
  | svm
deriving DecidableEq, Repr

/-- Modelled from the spec: the EVM bid metadata JSON of §6 carries the
variant fields and a nullable `bundle_index`. The field set is fixed by the
struct literal built in state.rs lines 548-560 (`models::BidMetadataEvm` is not
under src/). The `models::BundleIndex` newtype is inlined as `Option Nat`. -/
structure BidMetadataEvm where
  target_contract : Nat
  target_calldata : List Nat
  gas_limit       : Nat
  bundle_index    : Option Nat
deriving DecidableEq, Repr

/-- Modelled from the spec: the SVM bid metadata struct, as constructed in
state.rs lines 564-567, carries only the transaction blob
(`models::BidMetadataSvm` is not under src/). -/
structure BidMetadataSvm where
  transaction : List Nat
deriving DecidableEq, Repr

/-- Modelled from the spec: `models::BidMetadata` is the tagged sum of the two
variant metadata shapes (§6 bid metadata JSON with "type": "evm"|"svm"). -/
inductive BidMetadata where
  | evm (m : BidMetadataEvm)
  | svm (m : BidMetadataSvm)
deriving DecidableEq, Repr

/-- Modelled from the spec: `get_bundle_index` (called in state.rs lines 478
and 841) reads the nullable `bundle_index` of the metadata bundle (§6). The
SVM struct has no such field, so nothing can be read back for SVM metadata. -/
def BidMetadata.get_bundle_index : BidMetadata → Option Nat
  | .evm m => m.bundle_index
  | .svm _ => none

/-- Modelled from the spec: the `auction` table row of §6 and §3
(`models::Auction` is not under src/; its field set is fixed by the struct
literal in state.rs lines 669-682). -/
structure Auction where
  id                  : AuctionId
  creation_time       : Nat
  conclusion_time     : Option Nat
  permission_key      : List Nat
  chain_id            : ChainId
  chain_type          : ChainType
  tx_hash             : Option TxHash
  bid_collection_time : Option Nat
  submission_time     : Option Nat
deriving DecidableEq, Repr

/-- Modelled from the spec: the `bid` table row (`models::Bid` is not under
src/). Only the columns the verified code paths read or write are kept:
id, status, the nullable foreign key auction_id, and the metadata bundle.
Audit-only columns (creation_time, amounts, timestamps, permission_key,
chain_id, profile_id) are never inspected by the claims' code. -/
structure Bid where
  id         : BidId
  status     : BidStatus
  auction_id : Option AuctionId
  metadata   : BidMetadata
deriving DecidableEq, Repr

/-- Modelled from the spec: `models::Bid::is_for_auction` (called in state.rs
lines 468 and 507) checks the bid-auction binding of §3/§6: the bid's nullable
foreign key `auction_id` must designate exactly the given auction, or both
must be absent. -/
def Bid.is_for_auction (bid : Bid) (auction : Option Auction) : Bool :=
  match auction with
  | some a => bid.auction_id = some a.id
  | none   => bid.auction_id = none

/-- Modelled from the spec: the `access_token` table row of §3
(`models::AccessToken` is not under src/): id, profile_id, the URL-safe token
string, and the nullable revocation timestamp. -/
structure AccessToken where
  id         : Nat
  profile_id : Nat
  token      : String
  revoked_at : Option Nat
deriving DecidableEq, Repr

end models

/-- The shared core of the two simulated-bid variants (state.rs lines 92-117). -/
structure SimulatedBidCoreFields where
  id              : BidId
  bid_amount      : Nat
  permission_key  : PermissionKey
  chain_id        : ChainId
  status          : BidStatus
  initiation_time : Nat
  profile_id      : Option Nat
deriving DecidableEq, Repr

/-- The SVM bid variant (state.rs lines 119-128). -/
structure SimulatedBidSvm where
  core_fields : SimulatedBidCoreFields
  transaction : List Nat
deriving DecidableEq, Repr

/-- The EVM bid variant (state.rs lines 130-146). -/
structure SimulatedBidEvm where
  core_fields     : SimulatedBidCoreFields
  target_contract : Nat
  target_calldata : List Nat
  gas_limit       : Nat
deriving DecidableEq, Repr

/-- The `SimulatedBid` sum (state.rs lines 149-154). -/
inductive SimulatedBid where
  | evm (b : SimulatedBidEvm)
  | svm (b : SimulatedBidSvm)
deriving DecidableEq, Repr

/-- `SimulatedBidTrait::update_status` for the EVM variant (state.rs 173-180). -/
def SimulatedBidEvm.update_status (b : SimulatedBidEvm) (status : BidStatus) :
    SimulatedBidEvm :=
  { b with core_fields := { b.core_fields with status := status } }

/-- `SimulatedBidTrait::update_status` for the SVM variant (state.rs 188-195). -/
def SimulatedBidSvm.update_status (b : SimulatedBidSvm) (status : BidStatus) :
    SimulatedBidSvm :=
  { b with core_fields := { b.core_fields with status := status } }

/-- `SimulatedBid::get_core_fields` (state.rs 437-442). -/
def SimulatedBid.get_core_fields : SimulatedBid → SimulatedBidCoreFields
  | .evm b => b.core_fields
  | .svm b => b.core_fields

/-- `SimulatedBid::get_auction_key` (state.rs 444-450). -/
def SimulatedBid.get_auction_key (b : SimulatedBid) : AuctionKey :=
  (b.get_core_fields.permission_key, b.get_core_fields.chain_id)

/-- `SimulatedBid::update_status` (state.rs 452-459): replaces the status in
the core fields, keeping the variant payload. -/
def SimulatedBid.update_status (b : SimulatedBid) (status : BidStatus) :
    SimulatedBid :=
  match b with
  | .evm bid => .evm { bid with core_fields := { bid.core_fields with status := status } }
  | .svm bid => .svm { bid with core_fields := { bid.core_fields with status := status } }

/-- The variant payload of a simulated bid, used to state frame conditions:
everything a bid carries besides its core fields. -/
def SimulatedBid.variantPayload : SimulatedBid → (Nat × List Nat × Nat) ⊕ List Nat
  | .evm b => .inl (b.target_contract, b.target_calldata, b.gas_limit)
  | .svm b => .inr b.transaction

/-- Error kinds surfaced by the embedded `Store` methods; each constructor
names the message or `RestError` the Rust code returns at that spot. -/
inductive StoreError where
  /-- "Bid status cannot remain pending when removing a bid." (state.rs 950) -/
  | bidStatusPending
  /-- "Cannot broadcast submitted bid status without auction." (state.rs 969) -/
  | submittedWithoutAuction
  /-- a sqlx `execute`/`fetch` round trip failed at the transport level -/
  | dbFailure
  /-- metadata conversion failed (gas limit overflow, state.rs 551-554) -/
  | metadataConversionFailed
  /-- "Won or submitted bid must have a transaction hash and index" (state.rs 482) -/
  | missingHashOrIndex
  /-- "Bid is not for the given auction" (state.rs 469) -/
  | bidNotForAuction
  /-- "Invalid bid status" (state.rs 494) -/
  | invalidBidStatus
  /-- `fetch_one` on the access_token table found no row (state.rs 1139-1154) -/
  | tokenFetchFailed
  /-- `get_profile_by_id` failed (state.rs 1088-1100) -/
  | profileNotFound
deriving DecidableEq, Repr

/-- The `sqlx::Encode` impl for `BidStatus` (state.rs 341-360): the enum value
written into the `status` column. -/
def bidStatusEncode : BidStatus → models.BidStatus
  | .pending => .pending
  | .submitted _ _ => .submitted
  | .lost _ _ => .lost
  | .won _ _ => .won

/-- `TryFrom<SimulatedBid> for (models::BidMetadata, models::ChainType)`
(state.rs 540-572). For EVM bids the bundle index is taken from the status
(None for Pending, the optional index for Lost, the index for Submitted and
Won); the gas limit is narrowed from U256 into the metadata's machine integer
(the exact width lives in the missing models module; 64 bits is assumed). For
SVM bids only the transaction is kept. -/
def simulatedBidToMetadata (bid : SimulatedBid) :
    Except StoreError (models.BidMetadata × models.ChainType) :=
  match bid with
  | .evm b =>
      if b.gas_limit < 2 ^ 64 then
        .ok (.evm { target_contract := b.target_contract
                    target_calldata := b.target_calldata
                    gas_limit := b.gas_limit
                    bundle_index :=
                      match b.core_fields.status with
                      | .pending => none
                      | .lost _ index => index
                      | .submitted _ index => some index
                      | .won _ index => some index },
             .evm)
      else
        .error .metadataConversionFailed
  | .svm b => .ok (.svm { transaction := b.transaction }, .svm)

/-- `TryFrom<(models::Bid, Option<models::Auction>)> for BidStatus`
(state.rs 462-499): reconstructs the rich status from the persisted pair. -/
def bidStatusTryFrom (bid : models.Bid) (auction : Option models.Auction) :
    Except StoreError BidStatus :=
  if ¬ bid.is_for_auction auction then
    .error .bidNotForAuction
  else if bid.status = models.BidStatus.pending then
    .ok .pending
  else
    let result : Option TxHash :=
      match auction with
      | some a => a.tx_hash
      | none => none
    let index := bid.metadata.get_bundle_index
    if bid.status = models.BidStatus.lost then
      .ok (.lost result index)
    else
      match result, index with
      | some r, some i =>
          if bid.status = models.BidStatus.won then .ok (.won r i)
          else if bid.status = models.BidStatus.submitted then .ok (.submitted r i)
          else .error .invalidBidStatus
      | _, _ => .error .missingHashOrIndex

/-- The transaction hash a status is bound to, if any (§3: Submitted and Won
carry one, Lost optionally, Pending never). -/
def statusResult : BidStatus → Option TxHash
  | .pending => none
  | .submitted r _ => some r
  | .lost r _ => r
  | .won r _ => some r

/-- The persisted image of a simulated bid, for the round-trip law of §8: the
bid row stores the encoded status and the metadata produced by
`simulatedBidToMetadata`; the auction binding follows the status, as in §3
invariants 2-3: a status carrying a transaction hash binds the bid (through
`auction_id`) to an auction row whose `tx_hash` is that hash, and a status
carrying none leaves the bid unbound. -/
def persistBid (b : SimulatedBid) (aid : AuctionId) :
    Except StoreError (models.Bid × Option models.Auction) :=
  match simulatedBidToMetadata b with
  | .error e => .error e
  | .ok (metadata, chain_type) =>
      let cf := b.get_core_fields
      let auction : Option models.Auction :=
        (statusResult cf.status).map fun r =>
          { id := aid
            creation_time := 0
            conclusion_time := none
            permission_key := cf.permission_key
            chain_id := cf.chain_id
            chain_type := chain_type
            tx_hash := some r
            bid_collection_time := none
            submission_time := none }
      .ok ({ id := cf.id
             status := bidStatusEncode cf.status
             auction_id := (statusResult cf.status).map fun _ => aid
             metadata := metadata },
           auction)

/-! ### Association-list model of the hash maps

`std::collections::HashMap` keys are unique; the maps are embedded as
association lists with first-occurrence lookup. -/

/-- Lookup of the first entry with the given key (`HashMap::get`). -/
def alistGet {K V : Type} [DecidableEq K] : List (K × V) → K → Option V
  | [], _ => none
  | (k', v) :: rest, k => if k' = k then some v else alistGet rest k

/-- `entry(k).or_insert_with(Vec::new).push(a)`: append `a` to the vector at
`k`, creating a one-element entry when the key is absent. -/
def alistPush {K A : Type} [DecidableEq K] : List (K × List A) → K → A → List (K × List A)
  | [], k, a => [(k, [a])]
  | (k', vs) :: rest, k, a =>
      if k' = k then (k', vs ++ [a]) :: rest
      else (k', vs) :: alistPush rest k a

/-- The `Entry::Occupied` retain-then-drop-if-empty pattern of `remove_bid`
(state.rs 869-874) and `remove_submitted_auction` (state.rs 908-914): filter
the vector at `k` and remove the whole entry when the result is empty; a
vacant entry is left untouched. -/
def alistFilterEntry {K A : Type} [DecidableEq K] :
    List (K × List A) → K → (A → Bool) → List (K × List A)
  | [], _, _ => []
  | (k', vs) :: rest, k, keep =>
      if k' = k then
        let vs2 := vs.filter keep
        if vs2.isEmpty then rest else (k', vs2) :: rest
      else (k', vs) :: alistFilterEntry rest k keep

/-- Replace the first element of `l` satisfying `p` by `a`; identity when no
element matches (`bids[index] = bid` after `position`, state.rs 923-932). -/
def replaceFirst {A : Type} (p : A → Bool) (a : A) : List A → List A
  | [] => []
  | x :: xs => if p x then a :: xs else x :: replaceFirst p a xs

/-- `update_bid`'s map access (state.rs 921-937): in the entry at `k`, replace
the first element matching `p`; when the entry is vacant or no element
matches, the code only logs and leaves the map unchanged. -/
def alistReplaceInEntry {K A : Type} [DecidableEq K] :
    List (K × List A) → K → (A → Bool) → A → List (K × List A)
  | [], _, _, _ => []
  | (k', vs) :: rest, k, p, a =>
      if k' = k then (k', replaceFirst p a vs) :: rest
      else (k', vs) :: alistReplaceInEntry rest k p a

/-- `HashMap::insert`: set the value at `k`, appending a fresh entry when the
key is absent. -/
def alistSet {K V : Type} [DecidableEq K] : List (K × V) → K → V → List (K × V)
  | [], k, v => [(k, v)]
  | (k', w) :: rest, k, v =>
      if k' = k then (k', v) :: rest
      else (k', w) :: alistSet rest k v

/-- `HashMap::remove`: drop the entry at `k` (keys are unique, so filtering
every occurrence coincides with removing the one entry). -/
def alistErase {K V : Type} [DecidableEq K] (l : List (K × V)) (k : K) : List (K × V) :=
  l.filter fun p => decide (p.1 ≠ k)

/-! ### The Store -/

/-- The shared state of `Store` (state.rs 386-402) restricted to the fields
the claims touch, together with the DB tables behind them. The per-key
auction locks are represented by their `Arc` strong counts: an entry present
in the map contributes one reference itself, and each clone handed to a caller
by `get_auction_lock` contributes one more. -/
structure Store where
  bids               : List (AuctionKey × List SimulatedBid)
  submitted_auctions : List (ChainId × List models.Auction)
  auction_lock       : List (AuctionKey × Nat)
  db_bids            : List models.Bid
  db_auctions        : List models.Auction
  db_access_tokens   : List models.AccessToken
  db_profiles        : List Nat
  access_tokens      : List (String × Nat)
deriving DecidableEq, Repr

/-- The status-update event payload `BidStatusWithId` (state.rs 372-377). -/
structure BidStatusWithId where
  id         : BidId
  bid_status : BidStatus
deriving DecidableEq, Repr

/-- The number of `bid` rows matched by a guarded
`UPDATE bid ... WHERE id = bidId AND status = guard`. -/
def guardedMatchCount (db : List models.Bid) (bidId : BidId)
    (guard : models.BidStatus) : Nat :=
  (db.filter fun row => decide (row.id = bidId ∧ row.status = guard)).length

/-- A guarded `UPDATE bid SET ... WHERE id = bidId AND status = guard`:
rewrites every matched row with `f` and reports `rows_affected`. -/
def guardedBidUpdate (db : List models.Bid) (bidId : BidId)
    (guard : models.BidStatus) (f : models.Bid → models.Bid) :
    List models.Bid × Nat :=
  (db.map fun row => if row.id = bidId ∧ row.status = guard then f row else row,
   guardedMatchCount db bidId guard)

/-- The `jsonb_set(metadata, bundle_index key, idx)` patch used by the status
UPDATEs: on EVM metadata it sets the `bundle_index` field; on SVM metadata the
patch adds a JSON key the `BidMetadataSvm` struct does not carry, so the
struct-level value is unchanged. -/
def setBundleIndexPatch (m : models.BidMetadata) (idx : Nat) : models.BidMetadata :=
  match m with
  | .evm e => .evm { e with bundle_index := some idx }
  | .svm s => .svm s

/-- `Store::get_bids` (state.rs 739-741). -/
def Store.get_bids (st : Store) (key : AuctionKey) : List SimulatedBid :=
  (alistGet st.bids key).getD []

/-- `Store::remove_bid` (state.rs 865-876): under the bid's auction key,
retain the bids with a different id and drop the entry if it became empty. -/
def Store.remove_bid (st : Store) (bid : SimulatedBid) : Store :=
  let key := bid.get_auction_key
  let cf := bid.get_core_fields
  { st with
    bids := alistFilterEntry st.bids key fun b =>
      decide (b.get_core_fields.id ≠ cf.id) }

/-- `Store::update_bid` (state.rs 917-938): replace the stored bid with the
same id under the bid's auction key; a missing entry or missing id is logged
and leaves the map unchanged. -/
def Store.update_bid (st : Store) (bid : SimulatedBid) : Store :=
  let key := bid.get_auction_key
  let cf := bid.get_core_fields
  { st with
    bids := alistReplaceInEntry st.bids key
      (fun b => decide (b.get_core_fields.id = cf.id)) bid }

/-- `Store::broadcast_bid_status_and_update` (state.rs 940-1033). The target
status selects the guarded UPDATE: Pending is rejected outright; Submitted
requires an auction and guards on `status = 'pending'`, then updates the bid
in memory; Lost guards on `'submitted'` when it carries an index and an
auction and on `'pending'` otherwise, then removes the bid from memory; Won
guards on `'submitted'`, then removes the bid from memory. The status-update
event is emitted iff `rows_affected > 0` (state.rs 1026-1031). `dbOk = false`
makes the issued UPDATE fail at the transport level, which `?` propagates
before any in-memory step. -/
def Store.broadcast_bid_status_and_update (st : Store) (bid : SimulatedBid)
    (updated_status : BidStatus) (auction : Option models.Auction) (dbOk : Bool) :
    Store × Except StoreError (List BidStatusWithId) :=
  let cf := bid.get_core_fields
  match updated_status with
  | .pending => (st, .error .bidStatusPending)
  | .submitted r i =>
      match auction with
      | none => (st, .error .submittedWithoutAuction)
      | some a =>
          if dbOk then
            let qr := guardedBidUpdate st.db_bids cf.id .pending fun row =>
              { row with
                status := .submitted
                auction_id := some a.id
                metadata := setBundleIndexPatch row.metadata i }
            let st1 := { st with db_bids := qr.1 }
            let st2 := st1.update_bid (bid.update_status (.submitted r i))
            (st2,
             .ok (if 0 < qr.2 then [{ id := cf.id, bid_status := .submitted r i }] else []))
          else (st, .error .dbFailure)
  | .lost r i =>
      if dbOk then
        let qr :=
          match auction with
          | some a =>
              match i with
              | some idx =>
                  guardedBidUpdate st.db_bids cf.id .submitted fun row =>
                    { row with
                      status := .lost
                      metadata := setBundleIndexPatch row.metadata idx
                      auction_id := some a.id }
              | none =>
                  guardedBidUpdate st.db_bids cf.id .pending fun row =>
                    { row with status := .lost, auction_id := some a.id }
          | none =>
              guardedBidUpdate st.db_bids cf.id .pending fun row =>
                { row with status := .lost }
        let st1 := { st with db_bids := qr.1 }
        let st2 := st1.remove_bid bid
        (st2,
         .ok (if 0 < qr.2 then [{ id := cf.id, bid_status := .lost r i }] else []))
      else (st, .error .dbFailure)
  | .won r i =>
      if dbOk then
        let qr := guardedBidUpdate st.db_bids cf.id .submitted fun row =>
          { row with
            status := .won
            metadata := setBundleIndexPatch row.metadata i }
        let st1 := { st with db_bids := qr.1 }
        let st2 := st1.remove_bid bid
        (st2,
         .ok (if 0 < qr.2 then [{ id := cf.id, bid_status := .won r i }] else []))
      else (st, .error .dbFailure)

/-- The guard of the UPDATE `broadcast_bid_status_and_update` issues for a
target status, given whether an auction was passed; `none` when the call
errors before reaching a query. -/
def statusGuard (updated_status : BidStatus) (hasAuction : Bool) :
    Option models.BidStatus :=
  match updated_status with
  | .pending => none
  | .submitted _ _ => if hasAuction then some .pending else none
  | .lost _ i =>
      if hasAuction then
        match i with
        | some _ => some .submitted
        | none => some .pending
      else some .pending
  | .won _ _ => some .submitted

/-- `Store::submit_auction` (state.rs 697-720): stamp the auction value with
`tx_hash` and `submission_time = now`, issue the guarded UPDATE
(`WHERE id = auction.id AND submission_time IS NULL`), and push the stamped
auction into the in-memory `submitted_auctions` entry for its chain. A failed
UPDATE round trip is propagated by `?` before the push. -/
def Store.submit_auction (st : Store) (auction : models.Auction)
    (transaction_hash : TxHash) (now : Nat) (dbOk : Bool) :
    Store × Except StoreError models.Auction :=
  let a2 := { auction with
              tx_hash := some transaction_hash
              submission_time := some now }
  if dbOk then
    let db2 := st.db_auctions.map fun row =>
      if row.id = a2.id ∧ row.submission_time = none then
        { row with submission_time := some now, tx_hash := some transaction_hash }
      else row
    ({ st with
       db_auctions := db2
       submitted_auctions := alistPush st.submitted_auctions a2.chain_id a2 },
     .ok a2)
  else (st, .error .dbFailure)

/-- `Store::bids_for_submitted_auction` (state.rs 878-895): the bids stored
under the auction's own key whose status is Submitted with the auction's
transaction hash as result; empty when the auction has no `tx_hash`. -/
def Store.bids_for_submitted_auction (st : Store) (auction : models.Auction) :
    List SimulatedBid :=
  let bids := st.get_bids (auction.permission_key, auction.chain_id)
  match auction.tx_hash with
  | some tx_hash =>
      bids.filter fun bid =>
        match bid.get_core_fields.status with
        | .submitted result _ => decide (result = tx_hash)
        | _ => false
  | none => []

/-- `Store::remove_submitted_auction` (state.rs 897-915): a no-op while
`bids_for_submitted_auction` is non-empty; otherwise the auction id is
retained away from the in-memory entry of its chain, the entry being dropped
when it becomes empty. -/
def Store.remove_submitted_auction (st : Store) (auction : models.Auction) : Store :=
  if (st.bids_for_submitted_auction auction).isEmpty = false then st
  else
    { st with
      submitted_auctions :=
        alistFilterEntry st.submitted_auctions auction.chain_id fun a =>
          decide (a.id ≠ auction.id) }

/-- `Store::add_bid` (state.rs 766-806): convert the bid to its metadata
bundle (may fail), INSERT the bid row (status as submitted by the caller,
no auction binding yet), push the bid into the in-memory entry for its key,
and broadcast its status unconditionally. -/
def Store.add_bid (st : Store) (bid : SimulatedBid) (dbOk : Bool) :
    Store × Except StoreError (List BidStatusWithId) :=
  match simulatedBidToMetadata bid with
  | .error _ => (st, .error .metadataConversionFailed)
  | .ok (metadata, _) =>
      if dbOk then
        let cf := bid.get_core_fields
        let row : models.Bid :=
          { id := cf.id
            status := bidStatusEncode cf.status
            auction_id := none
            metadata := metadata }
        ({ st with
           db_bids := st.db_bids ++ [row]
           bids := alistPush st.bids bid.get_auction_key bid },
         .ok [{ id := cf.id, bid_status := cf.status }])
      else (st, .error .dbFailure)

/-- `Store::get_auction_lock` (state.rs 1042-1049): a fresh entry holds the
map's own `Arc` (count 1) and is immediately cloned for the caller; an
existing entry is cloned, incrementing its strong count. -/
def Store.get_auction_lock (st : Store) (key : AuctionKey) : Store :=
  match alistGet st.auction_lock key with
  | some n => { st with auction_lock := alistSet st.auction_lock key (n + 1) }
  | none => { st with auction_lock := st.auction_lock ++ [(key, 2)] }

/-- `Store::remove_auction_lock` (state.rs 1051-1060): drop the entry exactly
when its `Arc` strong count is 1, i.e. the map itself is the sole referent. -/
def Store.remove_auction_lock (st : Store) (key : AuctionKey) : Store :=
  match alistGet st.auction_lock key with
  | some n =>
      if n = 1 then { st with auction_lock := alistErase st.auction_lock key }
      else st
  | none => st

/-- `Store::get_or_create_access_token` (state.rs 1102-1162): the guarded
`INSERT ... SELECT ... WHERE NOT EXISTS (non-revoked token of this profile)`,
then `fetch_one` of the profile's non-revoked token, then the profile fetch
and the cache insert; the returned flag is `rows_affected > 0` of the INSERT.
The freshly generated token string and row id are passed in (the Rust code
draws them from `rand`/`Uuid::new_v4`). -/
def Store.get_or_create_access_token (st : Store) (profile_id : Nat)
    (newId : Nat) (generated_token : String) :
    Store × Except StoreError (models.AccessToken × Bool) :=
  let occupied := st.db_access_tokens.any fun r =>
    decide (r.profile_id = profile_id ∧ r.revoked_at = none)
  let db2 :=
    if occupied then st.db_access_tokens
    else st.db_access_tokens ++
      [{ id := newId, profile_id := profile_id, token := generated_token,
         revoked_at := none }]
  let st1 := { st with db_access_tokens := db2 }
  match db2.find? (fun r => decide (r.profile_id = profile_id ∧ r.revoked_at = none)) with
  | none => (st1, .error .tokenFetchFailed)
  | some token =>
      if profile_id ∈ st.db_profiles then
        ({ st1 with access_tokens := alistSet st1.access_tokens token.token profile_id },
         .ok (token, !occupied))
      else (st1, .error .profileNotFound)

/-- `Store::revoke_access_token` (state.rs 1164-1183): the guarded
`UPDATE access_token SET revoked_at = now() WHERE token = $1 AND revoked_at
IS NULL`, then removal from the cache. -/
def Store.revoke_access_token (st : Store) (token : String) (now : Nat) : Store :=
  { st with
    db_access_tokens := st.db_access_tokens.map fun r =>
      if r.token = token ∧ r.revoked_at = none then { r with revoked_at := some now }
      else r
    access_tokens := st.access_tokens.filter fun p => decide (p.1 ≠ token) }

/-- Well-formedness of the in-memory maps: every stored vector is non-empty
(a fresh entry is created with its first element, and removals drop an entry
rather than leave it empty). -/
def Store.mapsWf (st : Store) : Prop :=
  (∀ p ∈ st.bids, p.2 ≠ ([] : List SimulatedBid)) ∧
  (∀ p ∈ st.submitted_auctions, p.2 ≠ ([] : List models.Auction))

/-! ### Supporting lemmas -/

theorem alistGet_push {K A : Type} [DecidableEq K] (l : List (K × List A)) (k : K) (a : A) :
    alistGet (alistPush l k a) k = some ((alistGet l k).getD [] ++ [a]) := by
  induction l with
  | nil => simp [alistPush, alistGet]
  | cons p rest ih =>
      obtain ⟨k', vs⟩ := p
      by_cases h : k' = k
      · subst h
        simp [alistPush, alistGet]
      · simp [alistPush, alistGet, h, ih]

theorem alistPush_wf {K A : Type} [DecidableEq K] (l : List (K × List A)) (k : K) (a : A)
    (hl : ∀ p ∈ l, p.2 ≠ ([] : List A)) :
    ∀ p ∈ alistPush l k a, p.2 ≠ ([] : List A) := by
  induction l with
  | nil =>
      intro p hp
      simp [alistPush] at hp
      subst hp
      simp
  | cons q rest ih =>
      obtain ⟨k', vs⟩ := q
      intro p hp
      by_cases h : k' = k
      · subst h
        simp [alistPush] at hp
        rcases hp with hp | hp
        · subst hp
          simp
        · exact hl p (List.mem_cons_of_mem _ hp)
      · simp [alistPush, h] at hp
        rcases hp with hp | hp
        · subst hp
          exact hl (k', vs) (List.mem_cons_self _ _)
        · exact ih (fun q hq => hl q (List.mem_cons_of_mem _ hq)) p hp

theorem alistFilterEntry_wf {K A : Type} [DecidableEq K] (l : List (K × List A)) (k : K)
    (keep : A → Bool) (hl : ∀ p ∈ l, p.2 ≠ ([] : List A)) :
    ∀ p ∈ alistFilterEntry l k keep, p.2 ≠ ([] : List A) := by
  induction l with
  | nil =>
      intro p hp
      simp [alistFilterEntry] at hp
  | cons q rest ih =>
      obtain ⟨k', vs⟩ := q
      intro p hp
      by_cases h : k' = k
      · subst h
        simp only [alistFilterEntry, if_pos rfl] at hp
        by_cases he : (vs.filter keep).isEmpty
        · simp [he] at hp
          exact hl p (List.mem_cons_of_mem _ hp)
        · simp [he] at hp
          rcases hp with hp | hp
          · subst hp
            simpa [List.isEmpty_iff] using he
          · exact hl p (List.mem_cons_of_mem _ hp)
      · simp [alistFilterEntry, h] at hp
        rcases hp with hp | hp
        · subst hp
          exact hl (k', vs) (List.mem_cons_self _ _)
        · exact ih (fun q hq => hl q (List.mem_cons_of_mem _ hq)) p hp

theorem alistFilterEntry_id {K A : Type} [DecidableEq K] (l : List (K × List A)) (k : K)
    (keep : A → Bool)
    (h : ∀ vs, alistGet l k = some vs → vs.filter keep = vs ∧ vs ≠ []) :
    alistFilterEntry l k keep = l := by
  induction l with
  | nil => simp [alistFilterEntry]
  | cons q rest ih =>
      obtain ⟨k', vs⟩ := q
      by_cases hk : k' = k
      · subst hk
        obtain ⟨hfil, hne⟩ := h vs (by simp [alistGet])
        simp [alistFilterEntry, hfil, List.isEmpty_iff, hne]
      · simp only [alistFilterEntry, if_neg hk]
        have := ih (fun ws hw => h ws (by simpa [alistGet, hk] using hw))
        rw [this]

theorem replaceFirst_id {A : Type} (p : A → Bool) (a : A) (l : List A)
    (h : ∀ b ∈ l, p b = false) : replaceFirst p a l = l := by
  induction l with
  | nil => simp [replaceFirst]
  | cons x xs ih =>
      have hx := h x (List.mem_cons_self _ _)
      simp [replaceFirst, hx, ih fun b hb => h b (List.mem_cons_of_mem _ hb)]

theorem alistReplaceInEntry_id {K A : Type} [DecidableEq K] (l : List (K × List A)) (k : K)
    (p : A → Bool) (a : A)
    (h : ∀ vs, alistGet l k = some vs → ∀ b ∈ vs, p b = false) :
    alistReplaceInEntry l k p a = l := by
  induction l with
  | nil => simp [alistReplaceInEntry]
  | cons q rest ih =>
      obtain ⟨k', vs⟩ := q
      by_cases hk : k' = k
      · subst hk
        have := replaceFirst_id p a vs (h vs (by simp [alistGet]))
        simp [alistReplaceInEntry, this]
      · simp only [alistReplaceInEntry, if_neg hk]
        have := ih (fun ws hw => h ws (by simpa [alistGet, hk] using hw))
        rw [this]

theorem guardedBidUpdate_id (db : List models.Bid) (bidId : BidId)
    (guard : models.BidStatus) (f : models.Bid → models.Bid)
    (h : guardedMatchCount db bidId guard = 0) :
    (guardedBidUpdate db bidId guard f).1 = db := by
  unfold guardedMatchCount at h
  rw [List.length_eq_zero] at h
  unfold guardedBidUpdate
  simp only
  have hall : ∀ row ∈ db, ¬(row.id = bidId ∧ row.status = guard) := by
    intro row hrow
    have := List.filter_eq_nil_iff.mp h row hrow
    simpa using this
  calc db.map (fun row => if row.id = bidId ∧ row.status = guard then f row else row)
      = db.map id := by
        apply List.map_congr_left
        intro row hrow
        simp [hall row hrow]
    _ = db := List.map_id db

theorem guardedMatchCount_after (db : List models.Bid) (bidId : BidId)
    (guard : models.BidStatus) (f : models.Bid → models.Bid)
    (hf : ∀ row, (f row).status ≠ guard) :
    guardedMatchCount (guardedBidUpdate db bidId guard f).1 bidId guard = 0 := by
  unfold guardedBidUpdate guardedMatchCount
  simp only [List.length_eq_zero, List.filter_eq_nil_iff]
  intro row hrow
  rw [List.mem_map] at hrow
  obtain ⟨src, hsrc, hEq⟩ := hrow
  by_cases hc : src.id = bidId ∧ src.status = guard
  · rw [if_pos hc] at hEq
    subst hEq
    simp [hf src]
  · rw [if_neg hc] at hEq
    subst hEq
    simpa using hc

theorem guardedBidUpdate_snd (db : List models.Bid) (bidId : BidId)
    (guard : models.BidStatus) (f : models.Bid → models.Bid) :
    (guardedBidUpdate db bidId guard f).2 = guardedMatchCount db bidId guard := rfl

theorem alistGet_erase {K V : Type} [DecidableEq K] (l : List (K × V)) (k : K) :
    alistGet (alistErase l k) k = none := by
  induction l with
  | nil => simp [alistErase, alistGet]
  | cons p rest ih =>
      obtain ⟨k', v⟩ := p
      by_cases h : k' = k
      · simpa [alistErase, h] using ih
      · simpa [alistErase, alistGet, h] using ih

/-! ### Claims -/

/-- C5: for every bid, a requested transition whose target status is Pending
is rejected: `broadcast_bid_status_and_update` returns the error, the store
(DB tables and in-memory maps alike) is unchanged, and no event is emitted. -/
theorem broadcast_pending_rejected (st : Store) (bid : SimulatedBid)
    (auction : Option models.Auction) (dbOk : Bool) :
    st.broadcast_bid_status_and_update bid .pending auction dbOk =
      (st, .error .bidStatusPending) := rfl

/-- C9: for every simulated bid (EVM or SVM) and every status `s`,
`update_status` returns a bid whose status is `s` and whose every other field
(core fields and variant payload, hence also the auction key) is unchanged;
the same holds for the two `SimulatedBidTrait` impls. -/
theorem update_status_frame (b : SimulatedBid) (s : BidStatus)
    (eb : SimulatedBidEvm) (sb : SimulatedBidSvm) :
    (b.update_status s).get_core_fields.status = s ∧
    (b.update_status s).get_core_fields.id = b.get_core_fields.id ∧
    (b.update_status s).get_core_fields.bid_amount = b.get_core_fields.bid_amount ∧
    (b.update_status s).get_core_fields.permission_key = b.get_core_fields.permission_key ∧
    (b.update_status s).get_core_fields.chain_id = b.get_core_fields.chain_id ∧
    (b.update_status s).get_core_fields.initiation_time = b.get_core_fields.initiation_time ∧
    (b.update_status s).get_core_fields.profile_id = b.get_core_fields.profile_id ∧
    (b.update_status s).variantPayload = b.variantPayload ∧
    (b.update_status s).get_auction_key = b.get_auction_key ∧
    (eb.update_status s).core_fields.status = s ∧
    (eb.update_status s).core_fields.id = eb.core_fields.id ∧
    (eb.update_status s).core_fields.bid_amount = eb.core_fields.bid_amount ∧
    (eb.update_status s).core_fields.permission_key = eb.core_fields.permission_key ∧
    (eb.update_status s).core_fields.chain_id = eb.core_fields.chain_id ∧
    (eb.update_status s).core_fields.initiation_time = eb.core_fields.initiation_time ∧
    (eb.update_status s).core_fields.profile_id = eb.core_fields.profile_id ∧
    (eb.update_status s).target_contract = eb.target_contract ∧
    (eb.update_status s).target_calldata = eb.target_calldata ∧
    (eb.update_status s).gas_limit = eb.gas_limit ∧
    (sb.update_status s).core_fields.status = s ∧
    (sb.update_status s).core_fields.id = sb.core_fields.id ∧
    (sb.update_status s).core_fields.bid_amount = sb.core_fields.bid_amount ∧
    (sb.update_status s).core_fields.permission_key = sb.core_fields.permission_key ∧
    (sb.update_status s).core_fields.chain_id = sb.core_fields.chain_id ∧
    (sb.update_status s).core_fields.initiation_time = sb.core_fields.initiation_time ∧
    (sb.update_status s).core_fields.profile_id = sb.core_fields.profile_id ∧
    (sb.update_status s).transaction = sb.transaction := by
  cases b <;>
    simp [SimulatedBid.update_status, SimulatedBid.get_core_fields,
      SimulatedBid.variantPayload, SimulatedBid.get_auction_key,
      SimulatedBidEvm.update_status, SimulatedBidSvm.update_status]

/-- C7: a lock entry holding `Arc` strong count `n` has `n - 1` outstanding
holders besides the map's own reference. `remove_auction_lock` removes the
entry iff no outstanding holder remains, and an entry with a live holder is
left in place with its count intact. -/
theorem remove_auction_lock_sole_holder (st : Store) (key : AuctionKey) (n : Nat)
    (hget : alistGet st.auction_lock key = some n) (hpos : 1 ≤ n) :
    (alistGet (st.remove_auction_lock key).auction_lock key = none ↔ n - 1 = 0) ∧
    (0 < n - 1 → st.remove_auction_lock key = st) := by
  constructor
  · constructor
    · intro hnone
      by_contra hne
      have h1 : n ≠ 1 := by omega
      have : st.remove_auction_lock key = st := by
        unfold Store.remove_auction_lock
        rw [hget]
        simp [h1]
      rw [this, hget] at hnone
      exact Option.noConfusion hnone
    · intro h0
      have h1 : n = 1 := by omega
      unfold Store.remove_auction_lock
      rw [hget]
      simp only [h1, if_pos rfl]
      exact alistGet_erase st.auction_lock key
  · intro hlive
    have h1 : n ≠ 1 := by omega
    unfold Store.remove_auction_lock
    rw [hget]
    simp [h1]

/-- C3: `submit_auction` stamps the auction with `submission_time = now` and
the transaction hash; the DB write is guarded by `submission_time IS NULL`
(already-submitted rows are untouched, unsubmitted rows with the auction's id
get both columns set); when the DB write fails the call errors with the store
untouched, and when it succeeds the stamped auction is appended to the
in-memory submitted-auctions entry of its chain (DB first, memory only on
success), with the bids map untouched. -/
theorem submit_auction_db_first (st : Store) (auction : models.Auction)
    (tx : TxHash) (now : Nat) :
    (st.submit_auction auction tx now false = (st, .error .dbFailure)) ∧
    (∀ st2 a2, st.submit_auction auction tx now true = (st2, .ok a2) →
      a2 = { auction with tx_hash := some tx, submission_time := some now } ∧
      alistGet st2.submitted_auctions auction.chain_id =
        some ((alistGet st.submitted_auctions auction.chain_id).getD [] ++ [a2]) ∧
      st2.bids = st.bids ∧
      (∀ row ∈ st.db_auctions,
        ¬(row.id = auction.id ∧ row.submission_time = none) → row ∈ st2.db_auctions) ∧
      (∀ row ∈ st.db_auctions, row.id = auction.id ∧ row.submission_time = none →
        { row with submission_time := some now, tx_hash := some tx } ∈ st2.db_auctions)) := by
  constructor
  · rfl
  · intro st2 a2 h
    simp only [Store.submit_auction, if_pos rfl] at h
    obtain ⟨hst2, ha2⟩ := Prod.mk.injEq .. ▸ h
    rw [Except.ok.injEq] at ha2
    subst ha2
    refine ⟨rfl, ?_, ?_, ?_, ?_⟩
    · rw [← hst2]
      exact alistGet_push st.submitted_auctions auction.chain_id _
    · rw [← hst2]
    · intro row hrow hguard
      rw [← hst2]
      simp only
      have : (if row.id = auction.id ∧ row.submission_time = none then
          { row with submission_time := some now, tx_hash := some tx } else row) = row := by
        rw [if_neg hguard]
      rw [← this]
      exact List.mem_map_of_mem _ hrow
    · intro row hrow hguard
      rw [← hst2]
      simp only
      have : (if row.id = auction.id ∧ row.submission_time = none then
          { row with submission_time := some now, tx_hash := some tx } else row) =
          { row with submission_time := some now, tx_hash := some tx } := by
        rw [if_pos hguard]
      rw [← this]
      exact List.mem_map_of_mem _ hrow

/-- C10: every vector stored in the in-memory bids and submitted-auctions
maps is non-empty, and this invariant is preserved by the four mutating
operations: `add_bid` and `submit_auction` push into the entry they create,
`remove_bid` and `remove_submitted_auction` drop an entry rather than leave
it empty. -/
theorem maps_nonempty_preserved (st : Store) (hwf : st.mapsWf) :
    (∀ bid dbOk, ((st.add_bid bid dbOk).1).mapsWf) ∧
    (∀ auction tx now dbOk, ((st.submit_auction auction tx now dbOk).1).mapsWf) ∧
    (∀ bid, (st.remove_bid bid).mapsWf) ∧
    (∀ auction, (st.remove_submitted_auction auction).mapsWf) := by
  obtain ⟨hb, hs⟩ := hwf
  refine ⟨?_, ?_, ?_, ?_⟩
  · intro bid dbOk
    rcases hm : simulatedBidToMetadata bid with e | m
    · simpa [Store.add_bid, hm] using ⟨hb, hs⟩
    · cases dbOk
      · simpa [Store.add_bid, hm] using ⟨hb, hs⟩
      · refine ⟨?_, ?_⟩
        · simpa [Store.add_bid, hm] using
            alistPush_wf st.bids bid.get_auction_key bid hb
        · simpa [Store.add_bid, hm] using hs
  · intro auction tx now dbOk
    cases dbOk
    · simpa [Store.submit_auction] using ⟨hb, hs⟩
    · refine ⟨?_, ?_⟩
      · simpa [Store.submit_auction] using hb
      · simpa [Store.submit_auction] using
          alistPush_wf st.submitted_auctions auction.chain_id _ hs
  · intro bid
    refine ⟨?_, ?_⟩
    · simpa [Store.remove_bid] using
        alistFilterEntry_wf st.bids bid.get_auction_key _ hb
    · simpa [Store.remove_bid] using hs
  · intro auction
    by_cases hne : (st.bids_for_submitted_auction auction).isEmpty = false
    · simpa [Store.remove_submitted_auction, hne] using ⟨hb, hs⟩
    · refine ⟨?_, ?_⟩
      · simpa [Store.remove_submitted_auction, hne] using hb
      · simpa [Store.remove_submitted_auction, hne] using
          alistFilterEntry_wf st.submitted_auctions auction.chain_id _ hs

/-- The updated bid keeps the original's auction key (helper for the
in-memory frame lemmas). -/
theorem update_status_key (b : SimulatedBid) (s : BidStatus) :
    (b.update_status s).get_auction_key = b.get_auction_key := by
  cases b <;> rfl

/-- The updated bid keeps the original's id (helper). -/
theorem update_status_id (b : SimulatedBid) (s : BidStatus) :
    (b.update_status s).get_core_fields.id = b.get_core_fields.id := by
  cases b <;> rfl

/-- C1: for every bid and target status, whenever
`broadcast_bid_status_and_update` returns successfully it has issued the
guarded UPDATE given by `statusGuard`, and it emits the single status-update
event iff that UPDATE affected at least one row; moreover a second invocation
of the same Submitted → Won transition matches zero rows and emits no second
event. -/
theorem broadcast_emits_iff_rows_affected :
    (∀ (st : Store) (bid : SimulatedBid) (status : BidStatus)
        (auction : Option models.Auction) (dbOk : Bool) (st2 : Store)
        (evs : List BidStatusWithId),
      st.broadcast_bid_status_and_update bid status auction dbOk = (st2, .ok evs) →
      ∃ g, statusGuard status auction.isSome = some g ∧
        (evs ≠ [] ↔ 0 < guardedMatchCount st.db_bids bid.get_core_fields.id g) ∧
        (evs ≠ [] → evs = [{ id := bid.get_core_fields.id, bid_status := status }])) ∧
    (∀ (st : Store) (bid : SimulatedBid) (r : TxHash) (i : Nat)
        (auction : Option models.Auction) (dbOk : Bool) (st2 : Store)
        (evs : List BidStatusWithId),
      st.broadcast_bid_status_and_update bid (.won r i) auction dbOk = (st2, .ok evs) →
      guardedMatchCount st2.db_bids bid.get_core_fields.id .submitted = 0 ∧
      ∃ st3, st2.broadcast_bid_status_and_update bid (.won r i) auction true =
        (st3, .ok ([] : List BidStatusWithId))) := by
  constructor
  · intro st bid status auction dbOk st2 evs h
    cases status with
    | pending => simp [Store.broadcast_bid_status_and_update] at h
    | submitted r i =>
        cases auction with
        | none => simp [Store.broadcast_bid_status_and_update] at h
        | some a =>
            cases dbOk with
            | false => simp [Store.broadcast_bid_status_and_update] at h
            | true =>
                simp only [Store.broadcast_bid_status_and_update, guardedBidUpdate_snd,
                  if_true, Prod.mk.injEq, Except.ok.injEq] at h
                obtain ⟨-, hevs⟩ := h
                refine ⟨.pending, by simp [statusGuard], ?_, ?_⟩
                · by_cases hc :
                      0 < guardedMatchCount st.db_bids bid.get_core_fields.id .pending
                  · simp [← hevs, hc]
                  · simp [← hevs, hc]
                · intro hne
                  by_cases hc :
                      0 < guardedMatchCount st.db_bids bid.get_core_fields.id .pending
                  · simp [← hevs, hc]
                  · exact absurd (by simp [← hevs, hc]) hne
    | lost r i =>
        cases dbOk with
        | false => simp [Store.broadcast_bid_status_and_update] at h
        | true =>
            cases auction with
            | none =>
                simp only [Store.broadcast_bid_status_and_update, guardedBidUpdate_snd,
                  if_true, Prod.mk.injEq, Except.ok.injEq] at h
                obtain ⟨-, hevs⟩ := h
                refine ⟨.pending, by simp [statusGuard], ?_, ?_⟩
                · by_cases hc :
                      0 < guardedMatchCount st.db_bids bid.get_core_fields.id .pending
                  · simp [← hevs, hc]
                  · simp [← hevs, hc]
                · intro hne
                  by_cases hc :
                      0 < guardedMatchCount st.db_bids bid.get_core_fields.id .pending
                  · simp [← hevs, hc]
                  · exact absurd (by simp [← hevs, hc]) hne
            | some a =>
                cases i with
                | none =>
                    simp only [Store.broadcast_bid_status_and_update, guardedBidUpdate_snd,
                      if_true, Prod.mk.injEq, Except.ok.injEq] at h
                    obtain ⟨-, hevs⟩ := h
                    refine ⟨.pending, by simp [statusGuard], ?_, ?_⟩
                    · by_cases hc :
                          0 < guardedMatchCount st.db_bids bid.get_core_fields.id .pending
                      · simp [← hevs, hc]
                      · simp [← hevs, hc]
                    · intro hne
                      by_cases hc :
                          0 < guardedMatchCount st.db_bids bid.get_core_fields.id .pending
                      · simp [← hevs, hc]
                      · exact absurd (by simp [← hevs, hc]) hne
                | some idx =>
                    simp only [Store.broadcast_bid_status_and_update, guardedBidUpdate_snd,
                      if_true, Prod.mk.injEq, Except.ok.injEq] at h
                    obtain ⟨-, hevs⟩ := h
                    refine ⟨.submitted, by simp [statusGuard], ?_, ?_⟩
                    · by_cases hc :
                          0 < guardedMatchCount st.db_bids bid.get_core_fields.id .submitted
                      · simp [← hevs, hc]
                      · simp [← hevs, hc]
                    · intro hne
                      by_cases hc :
                          0 < guardedMatchCount st.db_bids bid.get_core_fields.id .submitted
                      · simp [← hevs, hc]
                      · exact absurd (by simp [← hevs, hc]) hne
    | won r i =>
        cases dbOk with
        | false => simp [Store.broadcast_bid_status_and_update] at h
        | true =>
            simp only [Store.broadcast_bid_status_and_update, guardedBidUpdate_snd,
              if_true, Prod.mk.injEq, Except.ok.injEq] at h
            obtain ⟨-, hevs⟩ := h
            refine ⟨.submitted, by simp [statusGuard], ?_, ?_⟩
            · by_cases hc :
                  0 < guardedMatchCount st.db_bids bid.get_core_fields.id .submitted
              · simp [← hevs, hc]
              · simp [← hevs, hc]
            · intro hne
              by_cases hc :
                  0 < guardedMatchCount st.db_bids bid.get_core_fields.id .submitted
              · simp [← hevs, hc]
              · exact absurd (by simp [← hevs, hc]) hne
  · intro st bid r i auction dbOk st2 evs h
    cases dbOk with
    | false => simp [Store.broadcast_bid_status_and_update] at h
    | true =>
        simp only [Store.broadcast_bid_status_and_update, guardedBidUpdate_snd,
          if_true, Prod.mk.injEq, Except.ok.injEq] at h
        obtain ⟨hst, -⟩ := h
        have hcnt : guardedMatchCount st2.db_bids bid.get_core_fields.id .submitted = 0 := by
          rw [← hst]
          show guardedMatchCount ((Store.remove_bid _ _)).db_bids _ _ = 0
          simp only [Store.remove_bid]
          exact guardedMatchCount_after _ _ _ _ fun row => by simp
        refine ⟨hcnt,
          (st2.broadcast_bid_status_and_update bid (.won r i) auction true).1, ?_⟩
        simp [Store.broadcast_bid_status_and_update, guardedBidUpdate_snd, hcnt]

/-- C2 counterexample fixture: a bid whose in-memory copy is still
`Submitted`. -/
def bidC2 : SimulatedBid :=
  .evm { core_fields :=
           { id := 1, bid_amount := 10, permission_key := [1], chain_id := "c",
             status := .submitted [7] 0, initiation_time := 0, profile_id := none }
         target_contract := 0
         target_calldata := []
         gas_limit := 0 }

/-- C2 counterexample fixture: the store holding `bidC2` in the bids index
while its DB row is already `won`. -/
def stC2 : Store :=
  { bids := [(([1], "c"), [bidC2])]
    submitted_auctions := []
    auction_lock := []
    db_bids := [{ id := 1, status := .won, auction_id := none,
                  metadata := .evm { target_contract := 0, target_calldata := [],
                                     gas_limit := 0, bundle_index := some 0 } }]
    db_auctions := []
    db_access_tokens := []
    db_profiles := []
    access_tokens := [] }

/-- C2 is false as stated: at `stC2` the Submitted → Won transition's guarded
UPDATE matches zero rows (the row is already `won`) and the broadcast is
suppressed, yet the call still removes the bid from the in-memory bids
index. -/
theorem broadcast_zero_rows_still_mutates_memory :
    guardedMatchCount stC2.db_bids 1 models.BidStatus.submitted = 0 ∧
    (stC2.broadcast_bid_status_and_update bidC2 (.won [7] 0) none true).2 =
      .ok ([] : List BidStatusWithId) ∧
    (stC2.broadcast_bid_status_and_update bidC2 (.won [7] 0) none true).1.bids ≠
      stC2.bids :=
  ⟨rfl, rfl, by decide⟩

/-- C2 amended: when the guarded UPDATE matches no row, the broadcast is
suppressed and the DB is left unchanged, but the caller still performs the
in-memory step (`update_bid` for Submitted, `remove_bid` for Lost and Won);
the bids index is therefore guaranteed unchanged only when the entry at the
bid's key no longer holds the bid. -/
theorem broadcast_zero_rows_effect (st : Store) (bid : SimulatedBid)
    (status : BidStatus) (auction : Option models.Auction) (dbOk : Bool)
    (st2 : Store) (evs : List BidStatusWithId) (g : models.BidStatus)
    (h : st.broadcast_bid_status_and_update bid status auction dbOk = (st2, .ok evs))
    (hg : statusGuard status auction.isSome = some g)
    (hzero : guardedMatchCount st.db_bids bid.get_core_fields.id g = 0) :
    evs = [] ∧ st2.db_bids = st.db_bids ∧
    ((∀ vs, alistGet st.bids bid.get_auction_key = some vs →
        vs ≠ [] ∧ ∀ b ∈ vs, b.get_core_fields.id ≠ bid.get_core_fields.id) →
      st2.bids = st.bids) := by
  cases status with
  | pending => simp [Store.broadcast_bid_status_and_update] at h
  | submitted r i =>
      cases auction with
      | none => simp [Store.broadcast_bid_status_and_update] at h
      | some a =>
          cases dbOk with
          | false => simp [Store.broadcast_bid_status_and_update] at h
          | true =>
              have hgp : models.BidStatus.pending = g := by
                simpa [statusGuard] using hg
              subst hgp
              simp only [Store.broadcast_bid_status_and_update, guardedBidUpdate_snd,
                if_true, Prod.mk.injEq, Except.ok.injEq] at h
              obtain ⟨hst, hevs⟩ := h
              refine ⟨by simp [← hevs, hzero], ?_, ?_⟩
              · rw [← hst]
                show ((Store.update_bid _ _)).db_bids = st.db_bids
                simp only [Store.update_bid]
                exact guardedBidUpdate_id _ _ _ _ hzero
              · intro habs
                rw [← hst]
                show ((Store.update_bid _ _)).bids = st.bids
                simp only [Store.update_bid, update_status_key, update_status_id]
                apply alistReplaceInEntry_id
                intro vs hvs b hb
                have hne := (habs vs hvs).2 b hb
                simp [hne]
  | lost r i =>
      cases dbOk with
      | false => simp [Store.broadcast_bid_status_and_update] at h
      | true =>
          cases auction with
          | none =>
              have hgp : models.BidStatus.pending = g := by
                simpa [statusGuard] using hg
              subst hgp
              simp only [Store.broadcast_bid_status_and_update, guardedBidUpdate_snd,
                if_true, Prod.mk.injEq, Except.ok.injEq] at h
              obtain ⟨hst, hevs⟩ := h
              refine ⟨by simp [← hevs, hzero], ?_, ?_⟩
              · rw [← hst]
                show ((Store.remove_bid _ _)).db_bids = st.db_bids
                simp only [Store.remove_bid]
                exact guardedBidUpdate_id _ _ _ _ hzero
              · intro habs
                rw [← hst]
                show ((Store.remove_bid _ _)).bids = st.bids
                simp only [Store.remove_bid]
                apply alistFilterEntry_id
                intro vs hvs
                obtain ⟨hne, hall⟩ := habs vs hvs
                refine ⟨List.filter_eq_self.mpr fun b hb => by simp [hall b hb], hne⟩
          | some a =>
              cases i with
              | none =>
                  have hgp : models.BidStatus.pending = g := by
                    simpa [statusGuard] using hg
                  subst hgp
                  simp only [Store.broadcast_bid_status_and_update, guardedBidUpdate_snd,
                    if_true, Prod.mk.injEq, Except.ok.injEq] at h
                  obtain ⟨hst, hevs⟩ := h
                  refine ⟨by simp [← hevs, hzero], ?_, ?_⟩
                  · rw [← hst]
                    show ((Store.remove_bid _ _)).db_bids = st.db_bids
                    simp only [Store.remove_bid]
                    exact guardedBidUpdate_id _ _ _ _ hzero
                  · intro habs
                    rw [← hst]
                    show ((Store.remove_bid _ _)).bids = st.bids
                    simp only [Store.remove_bid]
                    apply alistFilterEntry_id
                    intro vs hvs
                    obtain ⟨hne, hall⟩ := habs vs hvs
                    refine ⟨List.filter_eq_self.mpr fun b hb => by simp [hall b hb], hne⟩
              | some idx =>
                  have hgp : models.BidStatus.submitted = g := by
                    simpa [statusGuard] using hg
                  subst hgp
                  simp only [Store.broadcast_bid_status_and_update, guardedBidUpdate_snd,
                    if_true, Prod.mk.injEq, Except.ok.injEq] at h
                  obtain ⟨hst, hevs⟩ := h
                  refine ⟨by simp [← hevs, hzero], ?_, ?_⟩
                  · rw [← hst]
                    show ((Store.remove_bid _ _)).db_bids = st.db_bids
                    simp only [Store.remove_bid]
                    exact guardedBidUpdate_id _ _ _ _ hzero
                  · intro habs
                    rw [← hst]
                    show ((Store.remove_bid _ _)).bids = st.bids
                    simp only [Store.remove_bid]
                    apply alistFilterEntry_id
                    intro vs hvs
                    obtain ⟨hne, hall⟩ := habs vs hvs
                    refine ⟨List.filter_eq_self.mpr fun b hb => by simp [hall b hb], hne⟩
  | won r i =>
      cases dbOk with
      | false => simp [Store.broadcast_bid_status_and_update] at h
      | true =>
          have hgp : models.BidStatus.submitted = g := by
            simpa [statusGuard] using hg
          subst hgp
          simp only [Store.broadcast_bid_status_and_update, guardedBidUpdate_snd,
            if_true, Prod.mk.injEq, Except.ok.injEq] at h
          obtain ⟨hst, hevs⟩ := h
          refine ⟨by simp [← hevs, hzero], ?_, ?_⟩
          · rw [← hst]
            show ((Store.remove_bid _ _)).db_bids = st.db_bids
            simp only [Store.remove_bid]
            exact guardedBidUpdate_id _ _ _ _ hzero
          · intro habs
            rw [← hst]
            show ((Store.remove_bid _ _)).bids = st.bids
            simp only [Store.remove_bid]
            apply alistFilterEntry_id
            intro vs hvs
            obtain ⟨hne, hall⟩ := habs vs hvs
            refine ⟨List.filter_eq_self.mpr fun b hb => by simp [hall b hb], hne⟩

/-- The bundle position a status carries, if any (§3: Submitted and Won carry
one, Lost optionally, Pending never). -/
def statusIndexPart : BidStatus → Option Nat
  | .pending => none
  | .submitted _ i => some i
  | .lost _ i => i
  | .won _ i => some i

/-- The persist-then-reload composite of the round-trip law of §8: persist a
bid (its status into the row and metadata, its auction binding into the
optional auction row) and reconstruct the `BidStatus` from the pair. -/
def persistReload (b : SimulatedBid) (aid : AuctionId) : Except StoreError BidStatus :=
  match persistBid b aid with
  | .error e => .error e
  | .ok (row, auc) => bidStatusTryFrom row auc

/-- C4 counterexample fixture: an SVM bid whose status is Submitted. -/
def bidC4 : SimulatedBid :=
  .svm { core_fields :=
           { id := 2, bid_amount := 5, permission_key := [2], chain_id := "c",
             status := .submitted [9] 0, initiation_time := 0, profile_id := none }
         transaction := [3] }

/-- C4 counterexample fixture: the persisted bid row of `bidC4`. -/
def rowC4 : models.Bid :=
  { id := 2, status := .submitted, auction_id := some 5,
    metadata := .svm { transaction := [3] } }

/-- C4 counterexample fixture: the bound auction row of `bidC4`. -/
def aucC4 : Option models.Auction :=
  some { id := 5, creation_time := 0, conclusion_time := none,
         permission_key := [2], chain_id := "c", chain_type := .svm,
         tx_hash := some [9], bid_collection_time := none,
         submission_time := none }

/-- C4 is false as stated: the SVM bid `bidC4` with status
`Submitted { result := 0x09, index := 0 }` persists to a metadata bundle with
no bundle index, so reconstructing its `BidStatus` from the persisted pair
fails instead of returning the pre-persist status. -/
theorem persist_reload_svm_loses_index :
    bidC4.get_core_fields.status = .submitted [9] 0 ∧
    persistBid bidC4 5 = .ok (rowC4, aucC4) ∧
    persistReload bidC4 5 = .error .missingHashOrIndex :=
  ⟨rfl, rfl, rfl⟩

/-- C4 amended: persist-then-reconstruct returns the pre-persist status for
every EVM bid (whose gas limit fits the metadata integer) in all four
statuses and every Lost shape, and for SVM bids exactly in the statuses that
carry no bundle index (Pending, and Lost with no index); SVM statuses that
carry an index are not recoverable because the SVM metadata bundle stores no
`bundle_index`. -/
theorem persist_reload_roundtrip (b : SimulatedBid) (aid : AuctionId)
    (h : match b with
         | .evm eb => eb.gas_limit < 2 ^ 64
         | .svm sb => statusIndexPart sb.core_fields.status = none) :
    persistReload b aid = .ok b.get_core_fields.status := by
  cases b with
  | evm eb =>
      obtain ⟨cf, tc, td, gl⟩ := eb
      simp only at h
      norm_num at h
      obtain ⟨bidId, amt, pk, cid, status, itime, pid⟩ := cf
      cases status with
      | pending =>
          simp [persistReload, persistBid, simulatedBidToMetadata, h, statusResult,
            bidStatusEncode, bidStatusTryFrom, models.Bid.is_for_auction,
            models.BidMetadata.get_bundle_index, SimulatedBid.get_core_fields]
      | submitted r i =>
          simp [persistReload, persistBid, simulatedBidToMetadata, h, statusResult,
            bidStatusEncode, bidStatusTryFrom, models.Bid.is_for_auction,
            models.BidMetadata.get_bundle_index, SimulatedBid.get_core_fields]
      | lost r i =>
          cases r with
          | none =>
              simp [persistReload, persistBid, simulatedBidToMetadata, h, statusResult,
                bidStatusEncode, bidStatusTryFrom, models.Bid.is_for_auction,
                models.BidMetadata.get_bundle_index, SimulatedBid.get_core_fields]
          | some rr =>
              simp [persistReload, persistBid, simulatedBidToMetadata, h, statusResult,
                bidStatusEncode, bidStatusTryFrom, models.Bid.is_for_auction,
                models.BidMetadata.get_bundle_index, SimulatedBid.get_core_fields]
      | won r i =>
          simp [persistReload, persistBid, simulatedBidToMetadata, h, statusResult,
            bidStatusEncode, bidStatusTryFrom, models.Bid.is_for_auction,
            models.BidMetadata.get_bundle_index, SimulatedBid.get_core_fields]
  | svm sb =>
      obtain ⟨cf, txn⟩ := sb
      simp only at h
      obtain ⟨bidId, amt, pk, cid, status, itime, pid⟩ := cf
      cases status with
      | pending =>
          simp [persistReload, persistBid, simulatedBidToMetadata, statusResult,
            bidStatusEncode, bidStatusTryFrom, models.Bid.is_for_auction,
            models.BidMetadata.get_bundle_index, SimulatedBid.get_core_fields]
      | submitted r i => simp [statusIndexPart] at h
      | lost r i =>
          simp only [statusIndexPart] at h
          subst h
          cases r with
          | none =>
              simp [persistReload, persistBid, simulatedBidToMetadata, statusResult,
                bidStatusEncode, bidStatusTryFrom, models.Bid.is_for_auction,
                models.BidMetadata.get_bundle_index, SimulatedBid.get_core_fields]
          | some rr =>
              simp [persistReload, persistBid, simulatedBidToMetadata, statusResult,
                bidStatusEncode, bidStatusTryFrom, models.Bid.is_for_auction,
                models.BidMetadata.get_bundle_index, SimulatedBid.get_core_fields]
      | won r i => simp [statusIndexPart] at h

/-- C6 counterexample fixture: a bid under key ([2], "c") submitted into
transaction 0x07. -/
def bidC6 : SimulatedBid :=
  .evm { core_fields :=
           { id := 3, bid_amount := 5, permission_key := [2], chain_id := "c",
             status := .submitted [7] 0, initiation_time := 0, profile_id := none }
         target_contract := 0
         target_calldata := []
         gas_limit := 0 }

/-- C6 counterexample fixture: an auction with key ([1], "c") whose tx hash is
the same 0x07. -/
def auctionC6 : models.Auction :=
  { id := 11, creation_time := 0, conclusion_time := none, permission_key := [1],
    chain_id := "c", chain_type := .evm, tx_hash := some [7],
    bid_collection_time := none, submission_time := some 1 }

/-- C6 counterexample fixture: the store holding `bidC6` and `auctionC6`. -/
def stC6 : Store :=
  { bids := [(([2], "c"), [bidC6])]
    submitted_auctions := [("c", [auctionC6])]
    auction_lock := []
    db_bids := []
    db_auctions := []
    db_access_tokens := []
    db_profiles := []
    access_tokens := [] }

/-- C6 is false as stated: the bids index of `stC6` still holds a bid with
status `Submitted` whose result equals `auctionC6`'s tx hash (under a
different auction key), yet `remove_submitted_auction` removes the auction
anyway, because the code inspects only the bids stored under the auction's
own key. -/
theorem remove_submitted_auction_ignores_other_keys :
    (∃ p ∈ stC6.bids, ∃ b ∈ p.2, b.get_core_fields.status = .submitted [7] 0) ∧
    auctionC6.tx_hash = some [7] ∧
    (stC6.remove_submitted_auction auctionC6).submitted_auctions ≠
      stC6.submitted_auctions := by
  refine ⟨?_, rfl, by decide⟩
  decide

/-- C6 amended: `remove_submitted_auction` leaves the store unchanged
whenever some bid stored under the auction's own key
(`(permission_key, chain_id)`) still has status Submitted with result equal
to the auction's tx hash; when no such bid remains under that key (in
particular always when the auction has no tx hash), the auction's id is
removed from the in-memory submitted-auctions entry of its chain, the bids
index being untouched. -/
theorem remove_submitted_auction_checks_own_key (st : Store)
    (auction : models.Auction) :
    (∀ tx, auction.tx_hash = some tx →
      ((∃ b ∈ st.get_bids (auction.permission_key, auction.chain_id),
          ∃ i, b.get_core_fields.status = .submitted tx i) →
        st.remove_submitted_auction auction = st) ∧
      ((∀ b ∈ st.get_bids (auction.permission_key, auction.chain_id), ∀ i,
          b.get_core_fields.status ≠ .submitted tx i) →
        (st.remove_submitted_auction auction).submitted_auctions =
          alistFilterEntry st.submitted_auctions auction.chain_id
            (fun a => decide (a.id ≠ auction.id)) ∧
        (st.remove_submitted_auction auction).bids = st.bids)) ∧
    (auction.tx_hash = none →
      (st.remove_submitted_auction auction).submitted_auctions =
        alistFilterEntry st.submitted_auctions auction.chain_id
          (fun a => decide (a.id ≠ auction.id)) ∧
      (st.remove_submitted_auction auction).bids = st.bids) := by
  constructor
  · intro tx htx
    constructor
    · rintro ⟨b, hb, i, hstatus⟩
      have hmem : b ∈ st.bids_for_submitted_auction auction := by
        unfold Store.bids_for_submitted_auction
        rw [htx]
        refine List.mem_filter.mpr ⟨hb, ?_⟩
        rw [hstatus]
        simp
      have hne : (st.bids_for_submitted_auction auction).isEmpty = false := by
        cases hl : st.bids_for_submitted_auction auction with
        | nil => rw [hl] at hmem; exact absurd hmem (List.not_mem_nil b)
        | cons x xs => rfl
      simp [Store.remove_submitted_auction, hne]
    · intro hall
      have hempty : st.bids_for_submitted_auction auction = [] := by
        unfold Store.bids_for_submitted_auction
        rw [htx]
        apply List.filter_eq_nil_iff.mpr
        intro b hb
        cases hs : b.get_core_fields.status with
        | pending => simp
        | submitted result j =>
            by_cases hr : result = tx
            · exact absurd (hr ▸ hs) (hall b hb j)
            · simp [hr]
        | lost result j => simp
        | won result j => simp
      constructor
      · simp [Store.remove_submitted_auction, hempty]
      · simp [Store.remove_submitted_auction, hempty]
  · intro hnone
    have hempty : st.bids_for_submitted_auction auction = [] := by
      simp [Store.bids_for_submitted_auction, hnone]
    constructor
    · simp [Store.remove_submitted_auction, hempty]
    · simp [Store.remove_submitted_auction, hempty]

theorem listMapIfId {A : Type} (c : A → Prop) [DecidablePred c] (f : A → A)
    (l : List A) (h : ∀ x ∈ l, ¬ c x) :
    (l.map fun x => if c x then f x else x) = l := by
  induction l with
  | nil => rfl
  | cons x xs ih =>
      simp only [List.map_cons]
      rw [if_neg (h x (List.mem_cons_self _ _)),
        ih fun y hy => h y (List.mem_cons_of_mem _ hy)]

theorem listFindAppendNone {A : Type} (p : A → Bool) (l1 l2 : List A)
    (h : ∀ x ∈ l1, p x = false) : (l1 ++ l2).find? p = l2.find? p := by
  induction l1 with
  | nil => rfl
  | cons x xs ih =>
      have hx := h x (List.mem_cons_self _ _)
      simp only [List.cons_append, List.find?, hx]
      exact ih fun y hy => h y (List.mem_cons_of_mem _ hy)

/-- Helper: `get_or_create_access_token` on a profile with no non-revoked
token inserts the freshly generated token and returns it with flag true
(state.rs 1116-1161, the INSERT's NOT EXISTS guard passes). -/
theorem get_or_create_inserts (st : Store) (pid newId : Nat) (gt : String)
    (hprof : pid ∈ st.db_profiles)
    (hno : ∀ r ∈ st.db_access_tokens, ¬(r.profile_id = pid ∧ r.revoked_at = none)) :
    st.get_or_create_access_token pid newId gt =
      ({ st with
         db_access_tokens := st.db_access_tokens ++
           [{ id := newId, profile_id := pid, token := gt, revoked_at := none }]
         access_tokens := alistSet st.access_tokens gt pid },
       .ok ({ id := newId, profile_id := pid, token := gt, revoked_at := none },
            true)) := by
  have hany : (st.db_access_tokens.any fun r =>
      decide (r.profile_id = pid ∧ r.revoked_at = none)) = false := by
    rw [List.any_eq_false]
    intro r hr
    simpa using hno r hr
  have hc : ¬((st.db_access_tokens.any fun r =>
      decide (r.profile_id = pid ∧ r.revoked_at = none)) = true) := by
    rw [hany]
    exact Bool.false_ne_true
  have hfind : ((st.db_access_tokens ++
      [({ id := newId, profile_id := pid, token := gt,
          revoked_at := none } : models.AccessToken)]).find? fun r =>
        decide (r.profile_id = pid ∧ r.revoked_at = none)) =
      some { id := newId, profile_id := pid, token := gt, revoked_at := none } := by
    have hpref : ∀ x ∈ st.db_access_tokens,
        (fun r => decide (r.profile_id = pid ∧ r.revoked_at = none)) x = false := by
      intro x hx
      simpa using hno x hx
    rw [listFindAppendNone _ _ _ hpref]
    simp [List.find?]
  simp only [Store.get_or_create_access_token]
  rw [if_neg hc, hfind]
  simp only []
  rw [if_pos hprof]
  simp only [Prod.mk.injEq]
  refine ⟨trivial, ?_⟩
  rw [hany]
  rfl

/-- Helper: `get_or_create_access_token` on a profile whose non-revoked token
row is found returns that row with flag false (the INSERT's NOT EXISTS guard
blocks, rows_affected = 0). -/
theorem get_or_create_finds (st : Store) (pid newId : Nat) (gt : String)
    (t : models.AccessToken) (hprof : pid ∈ st.db_profiles)
    (hfind : (st.db_access_tokens.find? fun r =>
        decide (r.profile_id = pid ∧ r.revoked_at = none)) = some t) :
    st.get_or_create_access_token pid newId gt =
      ({ st with access_tokens := alistSet st.access_tokens t.token pid },
       .ok (t, false)) := by
  have ht : t.profile_id = pid ∧ t.revoked_at = none := by
    simpa using List.find?_some hfind
  have hany : (st.db_access_tokens.any fun r =>
      decide (r.profile_id = pid ∧ r.revoked_at = none)) = true := by
    rw [List.any_eq_true]
    exact ⟨t, List.mem_of_find?_eq_some hfind, by simpa using ht⟩
  simp only [Store.get_or_create_access_token]
  rw [if_pos hany, hfind]
  simp only []
  rw [if_pos hprof]
  simp only [Prod.mk.injEq]
  refine ⟨trivial, ?_⟩
  rw [hany]
  rfl

/-- Helper: the token table left by `get_or_create_access_token` is the old
table, extended by the generated row exactly when the NOT EXISTS guard
passed. -/
theorem get_or_create_db (st : Store) (pid newId : Nat) (gt : String) :
    ((st.get_or_create_access_token pid newId gt).1).db_access_tokens =
      if (st.db_access_tokens.any fun r =>
          decide (r.profile_id = pid ∧ r.revoked_at = none)) = true
      then st.db_access_tokens
      else st.db_access_tokens ++
        [{ id := newId, profile_id := pid, token := gt, revoked_at := none }] := by
  simp only [Store.get_or_create_access_token]
  by_cases hocc : (st.db_access_tokens.any fun r =>
      decide (r.profile_id = pid ∧ r.revoked_at = none)) = true
  · rw [if_pos hocc]
    rcases hf : (st.db_access_tokens.find? fun r =>
        decide (r.profile_id = pid ∧ r.revoked_at = none)) with _ | tok
    · rw [hf]
    · rw [hf]
      simp only []
      by_cases hp : pid ∈ st.db_profiles
      · rw [if_pos hp]
      · rw [if_neg hp]
  · rw [if_neg hocc]
    rcases hf : ((st.db_access_tokens ++
        [({ id := newId, profile_id := pid, token := gt,
            revoked_at := none } : models.AccessToken)]).find? fun r =>
          decide (r.profile_id = pid ∧ r.revoked_at = none)) with _ | tok
    · rw [hf]
    · rw [hf]
      simp only []
      by_cases hp : pid ∈ st.db_profiles
      · rw [if_pos hp]
      · rw [if_neg hp]

/-- The §3 invariant: at most one non-revoked access-token row per profile. -/
def atMostOneNonRevoked (db : List models.AccessToken) : Prop :=
  ∀ pid, (db.filter fun r =>
    decide (r.profile_id = pid ∧ r.revoked_at = none)).length ≤ 1

/-- Helper: revoking can only shrink the set of non-revoked rows of any
profile. -/
theorem revoke_filter_le (db : List models.AccessToken) (tok : String)
    (now pid : Nat) :
    ((db.map fun r =>
        if r.token = tok ∧ r.revoked_at = none
        then { r with revoked_at := some now } else r).filter fun r =>
      decide (r.profile_id = pid ∧ r.revoked_at = none)).length ≤
    ((db.filter fun r =>
      decide (r.profile_id = pid ∧ r.revoked_at = none)).length) := by
  induction db with
  | nil => simp
  | cons x xs ih =>
      by_cases hc : x.token = tok ∧ x.revoked_at = none
      · by_cases hp : x.profile_id = pid ∧ x.revoked_at = none
        · simp only [List.map_cons, if_pos hc, List.filter_cons]
          have h1 : decide (({ x with revoked_at := some now } :
              models.AccessToken).profile_id = pid ∧
              ({ x with revoked_at := some now } :
                models.AccessToken).revoked_at = none) = false := by simp
          have h2 : decide (x.profile_id = pid ∧ x.revoked_at = none) = true := by
            simpa using hp
          rw [h1, h2]
          simp only [if_false, if_true, List.length_cons]
          exact le_trans ih (Nat.le_succ _)
        · simp only [List.map_cons, if_pos hc, List.filter_cons]
          have h1 : decide (({ x with revoked_at := some now } :
              models.AccessToken).profile_id = pid ∧
              ({ x with revoked_at := some now } :
                models.AccessToken).revoked_at = none) = false := by simp
          have h2 : decide (x.profile_id = pid ∧ x.revoked_at = none) = false := by
            simpa using hp
          rw [h1, h2]
          simpa using ih
      · by_cases hp : x.profile_id = pid ∧ x.revoked_at = none
        · simp only [List.map_cons, if_neg hc, List.filter_cons]
          have h2 : decide (x.profile_id = pid ∧ x.revoked_at = none) = true := by
            simpa using hp
          rw [h2]
          simpa using ih
        · simp only [List.map_cons, if_neg hc, List.filter_cons]
          have h2 : decide (x.profile_id = pid ∧ x.revoked_at = none) = false := by
            simpa using hp
          rw [h2]
          simpa using ih

/-- C8: (scenario) for every profile with no non-revoked token, two calls of
`get_or_create_access_token` return `(t, true)` then `(t, false)` with the
same token row `t` bearing the first generated string; after revoking that
string, a third call returns `(t3, true)` whose token string is the freshly
generated one, different from `t`'s (freshness of the random strings is a
hypothesis); (flag) the returned boolean is true iff a new row was inserted;
(invariant) both operations preserve "at most one non-revoked token per
profile". -/
theorem get_or_create_token_behavior :
    (∀ (st : Store) (pid id1 id2 id3 now : Nat) (g1 g2 g3 : String),
      pid ∈ st.db_profiles →
      (∀ r ∈ st.db_access_tokens, ¬(r.profile_id = pid ∧ r.revoked_at = none)) →
      (∀ r ∈ st.db_access_tokens, r.token ≠ g1) →
      g3 ≠ g1 →
      ∃ t t3 st1 st2 st4,
        st.get_or_create_access_token pid id1 g1 = (st1, .ok (t, true)) ∧
        t.token = g1 ∧
        st1.get_or_create_access_token pid id2 g2 = (st2, .ok (t, false)) ∧
        (st2.revoke_access_token g1 now).get_or_create_access_token pid id3 g3 =
          (st4, .ok (t3, true)) ∧
        t3.token = g3 ∧ t3.token ≠ t.token) ∧
    (∀ (st st2 : Store) (pid newId : Nat) (gt : String)
        (t : models.AccessToken) (flag : Bool),
      st.get_or_create_access_token pid newId gt = (st2, .ok (t, flag)) →
      (flag = true ↔
        st2.db_access_tokens.length = st.db_access_tokens.length + 1) ∧
      (flag = false → st2.db_access_tokens = st.db_access_tokens)) ∧
    (∀ (st : Store) (pid newId : Nat) (gt : String),
      atMostOneNonRevoked st.db_access_tokens →
      atMostOneNonRevoked
        ((st.get_or_create_access_token pid newId gt).1).db_access_tokens) ∧
    (∀ (st : Store) (tok : String) (now : Nat),
      atMostOneNonRevoked st.db_access_tokens →
      atMostOneNonRevoked
        ((st.revoke_access_token tok now)).db_access_tokens) := by
  refine ⟨?_, ?_, ?_, ?_⟩
  · intro st pid id1 id2 id3 now g1 g2 g3 hprof hno hfresh1 hg31
    have hpref : ∀ x ∈ st.db_access_tokens,
        (fun r => decide (r.profile_id = pid ∧ r.revoked_at = none)) x = false := by
      intro x hx
      simpa using hno x hx
    refine ⟨{ id := id1, profile_id := pid, token := g1, revoked_at := none },
      { id := id3, profile_id := pid, token := g3, revoked_at := none },
      _, _, _,
      get_or_create_inserts st pid id1 g1 hprof hno, rfl,
      get_or_create_finds _ pid id2 g2 _ (by simpa using hprof) (by
        show ((st.db_access_tokens ++
            [({ id := id1, profile_id := pid, token := g1,
                revoked_at := none } : models.AccessToken)]).find? fun r =>
              decide (r.profile_id = pid ∧ r.revoked_at = none)) = _
        rw [listFindAppendNone _ _ _ hpref]
        simp [List.find?]),
      get_or_create_inserts _ pid id3 g3
        (by simpa [Store.revoke_access_token] using hprof) (by
        show ∀ r ∈ (List.map _ (st.db_access_tokens ++
            [({ id := id1, profile_id := pid, token := g1,
                revoked_at := none } : models.AccessToken)])), _
        intro r hr
        rw [List.map_append] at hr
        rcases List.mem_append.mp hr with hr1 | hr2
        · obtain ⟨src, hsrc, hEq⟩ := List.mem_map.mp hr1
          have hcond : ¬(src.token = g1 ∧ src.revoked_at = none) := by
            intro hc
            exact hfresh1 src hsrc hc.1
          rw [if_neg hcond] at hEq
          subst hEq
          exact hno src hsrc
        · simp only [List.map_cons, List.map_nil] at hr2
          rw [if_pos (by simp)] at hr2
          simp only [List.mem_singleton] at hr2
          subst hr2
          simp),
      rfl, by simpa using hg31⟩
  · intro st st2 pid newId gt t flag h
    by_cases hocc : (st.db_access_tokens.any fun r =>
        decide (r.profile_id = pid ∧ r.revoked_at = none)) = true
    · simp only [Store.get_or_create_access_token] at h
      rw [if_pos hocc] at h
      rcases hf : (st.db_access_tokens.find? fun r =>
          decide (r.profile_id = pid ∧ r.revoked_at = none)) with _ | tok
      · rw [hf] at h
        simp at h
      · rw [hf] at h
        simp only [] at h
        by_cases hp : pid ∈ st.db_profiles
        · rw [if_pos hp] at h
          simp only [Prod.mk.injEq, Except.ok.injEq] at h
          obtain ⟨hst2, ht, hflag⟩ := h
          have hflag2 : flag = false := by
            rw [hocc] at hflag
            simpa using hflag.symm
          subst hflag2
          refine ⟨⟨fun hcontra => absurd hcontra (by simp), fun hlen => ?_⟩,
            fun _ => ?_⟩
          · rw [← hst2] at hlen
            simp at hlen
          · rw [← hst2]
        · rw [if_neg hp] at h
          simp at h
    · have hany : (st.db_access_tokens.any fun r =>
          decide (r.profile_id = pid ∧ r.revoked_at = none)) = false := by
        cases hx : (st.db_access_tokens.any fun r =>
            decide (r.profile_id = pid ∧ r.revoked_at = none))
        · rfl
        · exact absurd hx hocc
      simp only [Store.get_or_create_access_token] at h
      rw [if_neg hocc] at h
      rcases hf : ((st.db_access_tokens ++
          [({ id := newId, profile_id := pid, token := gt,
              revoked_at := none } : models.AccessToken)]).find? fun r =>
            decide (r.profile_id = pid ∧ r.revoked_at = none)) with _ | tok
      · rw [hf] at h
        simp at h
      · rw [hf] at h
        simp only [] at h
        by_cases hp : pid ∈ st.db_profiles
        · rw [if_pos hp] at h
          simp only [Prod.mk.injEq, Except.ok.injEq] at h
          obtain ⟨hst2, ht, hflag⟩ := h
          have hflag2 : flag = true := by
            rw [hany] at hflag
            simpa using hflag.symm
          subst hflag2
          refine ⟨⟨fun _ => ?_, fun _ => rfl⟩, fun hcontra => absurd hcontra (by simp)⟩
          rw [← hst2]
          simp
        · rw [if_neg hp] at h
          simp at h
  · intro st pid newId gt hinv
    rw [get_or_create_db]
    by_cases hocc : (st.db_access_tokens.any fun r =>
        decide (r.profile_id = pid ∧ r.revoked_at = none)) = true
    · rw [if_pos hocc]
      exact hinv
    · rw [if_neg hocc]
      intro pid2
      rw [List.filter_append]
      by_cases hpid : pid2 = pid
      · subst hpid
        have hanyf : (st.db_access_tokens.any fun r =>
            decide (r.profile_id = pid2 ∧ r.revoked_at = none)) = false := by
          cases hx : (st.db_access_tokens.any fun r =>
              decide (r.profile_id = pid2 ∧ r.revoked_at = none))
          · rfl
          · exact absurd hx hocc
        have hnil : (st.db_access_tokens.filter fun r =>
            decide (r.profile_id = pid2 ∧ r.revoked_at = none)) = [] := by
          apply List.filter_eq_nil_iff.mpr
          intro r hr
          have := List.any_eq_false.mp hanyf r hr
          simpa using this
        rw [hnil]
        simp
      · have hone : (List.filter (fun r =>
            decide (r.profile_id = pid2 ∧ r.revoked_at = none))
            [({ id := newId, profile_id := pid, token := gt,
                revoked_at := none } : models.AccessToken)]) = [] := by
          simp [Ne.symm hpid]
        rw [hone]
        simpa using hinv pid2
  · intro st tok now hinv pid
    exact le_trans (revoke_filter_le st.db_access_tokens tok now pid) (hinv pid)


/-! ### Concrete witness fixtures -/

/-- An empty store. -/
def emptyStore : Store :=
  { bids := []
    submitted_auctions := []
    auction_lock := []
    db_bids := []
    db_auctions := []
    db_access_tokens := []
    db_profiles := []
    access_tokens := [] }

/-- Witness fixture: an EVM bid with id 1. -/
def bidW1 : SimulatedBid :=
  .evm { core_fields :=
           { id := 1, bid_amount := 2, permission_key := [4], chain_id := "w",
             status := .submitted [5] 0, initiation_time := 0, profile_id := none }
         target_contract := 0
         target_calldata := []
         gas_limit := 0 }

/-- Witness fixture: a store whose bid row 1 is submitted. -/
def stW1 : Store :=
  { emptyStore with
    db_bids := [{ id := 1, status := .submitted, auction_id := none,
                  metadata := .svm { transaction := [] } }] }

theorem broadcast_emits_iff_rows_affected_witness :
    ∃ g, statusGuard (.won [5] 0) (none : Option models.Auction).isSome = some g ∧
      (([({ id := 1, bid_status := .won [5] 0 } : BidStatusWithId)] :
          List BidStatusWithId) ≠ [] ↔
        0 < guardedMatchCount stW1.db_bids bidW1.get_core_fields.id g) ∧
      (([({ id := 1, bid_status := .won [5] 0 } : BidStatusWithId)] :
          List BidStatusWithId) ≠ [] →
        [({ id := 1, bid_status := .won [5] 0 } : BidStatusWithId)] =
          [{ id := bidW1.get_core_fields.id, bid_status := .won [5] 0 }]) :=
  broadcast_emits_iff_rows_affected.1 stW1 bidW1 (.won [5] 0) none true
    (stW1.broadcast_bid_status_and_update bidW1 (.won [5] 0) none true).1
    [{ id := 1, bid_status := .won [5] 0 }] (by rfl)

theorem broadcast_zero_rows_effect_witness :
    ([] : List BidStatusWithId) = [] ∧
    ((emptyStore.broadcast_bid_status_and_update bidW1 (.won [5] 0) none
        true).1).db_bids = emptyStore.db_bids ∧
    ((∀ vs, alistGet emptyStore.bids bidW1.get_auction_key = some vs →
        vs ≠ [] ∧ ∀ b ∈ vs, b.get_core_fields.id ≠ bidW1.get_core_fields.id) →
      ((emptyStore.broadcast_bid_status_and_update bidW1 (.won [5] 0) none
          true).1).bids = emptyStore.bids) :=
  broadcast_zero_rows_effect emptyStore bidW1 (.won [5] 0) none true
    (emptyStore.broadcast_bid_status_and_update bidW1 (.won [5] 0) none true).1
    [] .submitted (by rfl) (by rfl) (by rfl)

/-- Witness fixture: an unsubmitted auction row. -/
def aucW3 : models.Auction :=
  { id := 21, creation_time := 0, conclusion_time := none, permission_key := [4],
    chain_id := "w", chain_type := .evm, tx_hash := none,
    bid_collection_time := some 1, submission_time := none }

/-- Witness fixture: a store holding the auction row `aucW3`. -/
def stW3 : Store := { emptyStore with db_auctions := [aucW3] }

theorem submit_auction_db_first_witness :
    ({ aucW3 with tx_hash := some [1], submission_time := some 7 } :
        models.Auction) =
      { aucW3 with tx_hash := some [1], submission_time := some 7 } ∧
    alistGet ((stW3.submit_auction aucW3 [1] 7 true).1).submitted_auctions
        aucW3.chain_id =
      some ((alistGet stW3.submitted_auctions aucW3.chain_id).getD [] ++
        [{ aucW3 with tx_hash := some [1], submission_time := some 7 }]) ∧
    ((stW3.submit_auction aucW3 [1] 7 true).1).bids = stW3.bids ∧
    (∀ row ∈ stW3.db_auctions,
      ¬(row.id = aucW3.id ∧ row.submission_time = none) →
      row ∈ ((stW3.submit_auction aucW3 [1] 7 true).1).db_auctions) ∧
    (∀ row ∈ stW3.db_auctions, row.id = aucW3.id ∧ row.submission_time = none →
      { row with submission_time := some 7, tx_hash := some [1] } ∈
        ((stW3.submit_auction aucW3 [1] 7 true).1).db_auctions) :=
  (submit_auction_db_first stW3 aucW3 [1] 7).2
    (stW3.submit_auction aucW3 [1] 7 true).1
    { aucW3 with tx_hash := some [1], submission_time := some 7 } (by rfl)

/-- Witness fixture: an EVM bid with a Won status. -/
def bidW4 : SimulatedBid :=
  .evm { core_fields :=
           { id := 6, bid_amount := 3, permission_key := [9], chain_id := "w",
             status := .won [2] 1, initiation_time := 0, profile_id := none }
         target_contract := 0
         target_calldata := [1]
         gas_limit := 100 }

theorem persist_reload_roundtrip_witness :
    persistReload bidW4 3 = .ok bidW4.get_core_fields.status :=
  persist_reload_roundtrip bidW4 3 (by show (100 : Nat) < 2 ^ 64; norm_num)

/-- Witness fixture: a submitted auction with no tx hash recorded. -/
def aucW6 : models.Auction :=
  { id := 31, creation_time := 0, conclusion_time := none, permission_key := [4],
    chain_id := "w", chain_type := .evm, tx_hash := none,
    bid_collection_time := none, submission_time := some 1 }

/-- Witness fixture: a store holding `aucW6` in the submitted-auctions map. -/
def stW6 : Store := { emptyStore with submitted_auctions := [("w", [aucW6])] }

theorem remove_submitted_auction_checks_own_key_witness :
    (stW6.remove_submitted_auction aucW6).submitted_auctions =
      alistFilterEntry stW6.submitted_auctions aucW6.chain_id
        (fun a => decide (a.id ≠ aucW6.id)) ∧
    (stW6.remove_submitted_auction aucW6).bids = stW6.bids :=
  (remove_submitted_auction_checks_own_key stW6 aucW6).2 (by rfl)

/-- Witness fixture: a store whose lock map holds one unreferenced lock. -/
def stW7 : Store := { emptyStore with auction_lock := [(([4], "w"), 1)] }

theorem remove_auction_lock_sole_holder_witness :
    (alistGet (stW7.remove_auction_lock ([4], "w")).auction_lock ([4], "w") =
        none ↔ 1 - 1 = 0) ∧
    (0 < 1 - 1 → stW7.remove_auction_lock ([4], "w") = stW7) :=
  remove_auction_lock_sole_holder stW7 ([4], "w") 1 (by rfl) (by decide)

/-- Witness fixture: a store holding one profile and no tokens. -/
def stW8 : Store := { emptyStore with db_profiles := [42] }

theorem get_or_create_token_behavior_witness :
    ∃ t t3 st1 st2 st4,
      stW8.get_or_create_access_token 42 100 "g1" = (st1, .ok (t, true)) ∧
      t.token = "g1" ∧
      st1.get_or_create_access_token 42 101 "g2" = (st2, .ok (t, false)) ∧
      (st2.revoke_access_token "g1" 9).get_or_create_access_token 42 102 "g3" =
        (st4, .ok (t3, true)) ∧
      t3.token = "g3" ∧ t3.token ≠ t.token :=
  get_or_create_token_behavior.1 stW8 42 100 101 102 9 "g1" "g2" "g3"
    (by decide) (by simp [stW8, emptyStore]) (by simp [stW8, emptyStore])
    (by decide)

theorem maps_nonempty_preserved_witness :
    (∀ bid dbOk, ((emptyStore.add_bid bid dbOk).1).mapsWf) ∧
    (∀ auction tx now dbOk,
      ((emptyStore.submit_auction auction tx now dbOk).1).mapsWf) ∧
    (∀ bid, (emptyStore.remove_bid bid).mapsWf) ∧
    (∀ auction, (emptyStore.remove_submitted_auction auction).mapsWf) :=
  maps_nonempty_preserved emptyStore
    (by constructor <;> simp [emptyStore])

end PerState
